import Mathlib

/-!
Verification of the BlueJay agentic execution engine.

This development shallowly embeds the agentic tool (the orchestrator in the
repository's agentic module: plan creation, placeholder detection, the step
executor with its clarification loop, outcome verification, plan validation
and the controller loop) together with the command runner of the CLI entry
point (`isInteractiveCommand` / `executeCommand`).  External collaborators
(the LLM, the user prompts, and the OS process facility) are modelled as
oracle functions supplied to the embedded code; everything the embedded code
itself does is translated directly from the JavaScript source.

Certainty values are rational numbers; character-level scanning replays the
regular expressions of `PLACEHOLDER_PATTERNS` exactly.
-/

namespace BlueJay

/-! ## Placeholder detection (agentic module, `PLACEHOLDER_PATTERNS` and
`detectPlaceholders`)

Each JavaScript regular expression in `PLACEHOLDER_PATTERNS` is embedded as a
matcher that attempts to match at the head of a character list; `scan` then
reproduces the leftmost-match search of `String.prototype.match` (first
position, alternatives in order at a given position). -/

/-- Lower-case a character list, replaying the `/i` flag. -/
def charsToLower (l : List Char) : List Char := l.map Char.toLower

/-- Case-insensitive prefix test used by the literal matchers. -/
def isPrefixCI (pat text : List Char) : Bool :=
  List.isPrefixOf (charsToLower pat) (charsToLower text)

/-- Match a literal pattern (case-insensitively) at the head of `text`,
returning the matched slice of the original text. -/
def litAt (pat : String) (text : List Char) : Option (List Char) :=
  if isPrefixCI pat.toList text then some (text.take pat.toList.length) else none

/-- Word character as in JavaScript `\w` and `[a-z_]` with the `/i` flag:
for `/<[a-z_]+>/i` the admissible run characters are letters and `_`. -/
def isAngleRunChar (c : Char) : Bool :=
  (('a' ≤ c && c ≤ 'z') || ('A' ≤ c && c ≤ 'Z') || c == '_')

/-- Matcher for `/<[a-z_]+>/i` at the head of `text`: a `<`, a nonempty run
of letters or underscores, then `>`. -/
def atAngle (text : List Char) : Option (List Char) :=
  match text with
  | '<' :: rest =>
    let run := rest.takeWhile isAngleRunChar
    if run.length == 0 then none
    else
      match rest.drop run.length with
      | '>' :: _ => some ('<' :: (run ++ ['>']))
      | _ => none
  | _ => none

/-- Matcher for `/\[.*?\]/i` at the head of `text`: a `[`, then lazily any
characters other than `]` (and other than a newline, which `.` never
matches), then `]`. -/
def atBracket (text : List Char) : Option (List Char) :=
  match text with
  | '[' :: rest =>
    let mid := rest.takeWhile (fun c => !(c == ']') && !(c == '\n'))
    match rest.drop mid.length with
    | ']' :: _ => some ('[' :: (mid ++ [']']))
    | _ => none
  | _ => none

/-- Matcher for `/foo|bar|baz/i` at the head of `text`: alternatives tried in
order at the same position. -/
def atFooBarBaz (text : List Char) : Option (List Char) :=
  match litAt "foo" text with
  | some m => some m
  | none =>
    match litAt "bar" text with
    | some m => some m
    | none => litAt "baz" text

/-- Leftmost-match search: try the positional matcher at every position from
the left, as `String.prototype.match` does for an unanchored pattern. -/
def scan (f : List Char → Option (List Char)) : List Char → Option (List Char)
  | [] => f []
  | c :: rest =>
    match f (c :: rest) with
    | some m => some m
    | none => scan f rest

/-- The fixed pattern list of the agentic module, each entry carrying the
`pattern.toString()` text recorded on matches and its positional matcher. -/
def PLACEHOLDER_PATTERNS : List (String × (List Char → Option (List Char))) :=
  [ ("/path\\/to\\//i", litAt "path/to/"),
    ("/example\\.com/i", litAt "example.com"),
    ("/username/i", litAt "username"),
    ("/password/i", litAt "password"),
    ("/your_/i", litAt "your_"),
    ("/<[a-z_]+>/i", atAngle),
    ("/\\[.*?\\]/i", atBracket),
    ("/placeholder/i", litAt "placeholder"),
    ("/example/i", litAt "example"),
    ("/sample/i", litAt "sample"),
    ("/foo|bar|baz/i", atFooBarBaz),
    ("/\\/path\\//i", litAt "/path/"),
    ("/\\/directory\\//i", litAt "/directory/"),
    ("/\\/folder\\//i", litAt "/folder/"),
    ("/\\/repo\\//i", litAt "/repo/"),
    ("/\\/repository\\//i", litAt "/repository/") ]

/-- One recorded placeholder hit: the pattern's string form and the first
matched text (`matches[0]`). -/
structure PatternMatch where
  pattern : String
  matched : String
deriving DecidableEq, Repr

/-- Return value of `detectPlaceholders`. -/
structure DetectResult where
  detected : Bool
  patterns : List PatternMatch
deriving DecidableEq, Repr

/-- `detectPlaceholders(text)` of the agentic module.  A missing command is
`none`; the JavaScript falsiness guard `if (!text)` also short-circuits the
empty string.  For each pattern of `PLACEHOLDER_PATTERNS`, `text.match`
yields the first match, recorded with the pattern's string form. -/
def detectPlaceholders (text : Option String) : DetectResult :=
  match text with
  | none => { detected := false, patterns := [] }
  | some s =>
    if s = "" then { detected := false, patterns := [] }
    else
      let found := PLACEHOLDER_PATTERNS.filterMap fun p =>
        (scan p.2 s.toList).map fun m => PatternMatch.mk p.1 (String.mk m)
      { detected := decide (0 < found.length), patterns := found }

/-! ## Data model -/

/-- Exact rational subtraction written through `mkRat` so that concrete
instances reduce inside the kernel; `ratSub_eq_sub` below identifies it with
the subtraction of `ℚ`. -/
def ratSub (a b : ℚ) : ℚ := mkRat (a.num * b.den - b.num * a.den) (a.den * b.den)

/-- Default certainty threshold of the agentic module. -/
def DEFAULT_CERTAINTY_THRESHOLD : ℚ := mkRat 7 10

/-- A plan step.  `command` is optional; `placeholders` and
`descriptionPlaceholders` are populated by the controller's placeholder pass;
`clarified` is set once a clarification round has produced the step. -/
structure Step where
  description : String
  command : Option String
  certainty : ℚ
  placeholders : List PatternMatch
  descriptionPlaceholders : List PatternMatch
  clarified : Bool
deriving DecidableEq, Repr

/-- Result of one step execution attempt, as returned by `executeStep`:
`{success, skipped?, error?, result?, command?}`. -/
structure ExecutionResult where
  success : Bool
  skipped : Bool
  error : Option String
  result : Option String
  command : Option String
deriving DecidableEq, Repr

/-- Externally visible actions of a run, in order of occurrence. -/
inductive Event where
  | clarify (step : Step)
  | confirmPrompt (command : String)
  | runCommand (step : Step) (command : String)
deriving DecidableEq, Repr

/-! ## Command runners

Two distinct runners exist in the repository.  The CLI entry point
(`src/index.js`) uses `spawn` with an interactivity heuristic
(`isInteractiveCommand` / `executeCommand`); the agentic module's
`executeCommandPromise` uses `exec`, whose stdio is always piped and
buffered.  `IOMode` records which stdio configuration a runner uses for a
given command. -/

/-- Stdio configuration of a spawned command: `passthrough` is
`stdio: 'inherit'` (full terminal I/O), `captured` is piped stdout collected
into a buffer. -/
inductive IOMode where
  | passthrough
  | captured
deriving DecidableEq, Repr

/-- Split a character list at every space, keeping empty segments, exactly
as `String.prototype.split(' ')` does. -/
def splitSpaceAux : List Char → List Char → List (List Char)
  | [], acc => [acc.reverse]
  | c :: rest, acc =>
    if c = ' ' then acc.reverse :: splitSpaceAux rest []
    else splitSpaceAux rest (c :: acc)

/-- `command.split(' ')` as a list of strings. -/
def splitOnSpace (s : String) : List String :=
  (splitSpaceAux s.toList []).map String.mk

/-- Word character in the sense of the JavaScript `\b` boundary:
`[A-Za-z0-9_]`. -/
def isWordChar (c : Char) : Bool := c.isAlphanum || c == '_'

/-- Match the word `w` case-insensitively at the head of `t` with a word
boundary after it (end of string or a non-word character). -/
def matchWordAt (w : String) (t : List Char) : Bool :=
  isPrefixCI w.toList t &&
    (match t.drop w.toList.length with
     | [] => true
     | c :: _ => !(isWordChar c))

/-- Scan for `/\b(edit|editor)\b/i`: at each position whose predecessor is
absent or a non-word character, try the alternatives in order. -/
def editScan : Option Char → List Char → Bool
  | _, [] => false
  | prev, c :: rest =>
    ((match prev with
      | none => true
      | some p => !(isWordChar p)) &&
     (matchWordAt "edit" (c :: rest) || matchWordAt "editor" (c :: rest)))
    || editScan (some c) rest

/-- `isInteractiveCommand` of `src/index.js`: a known interactive command
name, a `-i`/`--interactive` flag among the space-separated parts, or a
whole-word `edit`/`editor` occurrence. -/
def isInteractiveCommand (command : String) : Bool :=
  if command = "" then false
  else
    let parts := splitOnSpace command
    let commandName := parts.headD ""
    let knownInteractiveCommands :=
      ["vim", "nano", "emacs", "less", "more", "top", "htop", "ssh",
       "mysql", "psql", "python", "node"]
    let hasInteractiveFlag := parts.any fun part =>
      part == "-i" || part == "--interactive"
    let hasEditorPattern := editScan none command.toList
    knownInteractiveCommands.any (fun cmd => commandName == cmd)
      || hasInteractiveFlag || hasEditorPattern

/-- Outcome of the spawned child process observed by `executeCommand`:
an optional spawn error, the exit code of the `close` event, and the data
that would flow on stdout. -/
structure ProcOutcome where
  spawnError : Option String
  exitCode : Nat
  stdoutData : String

/-- `executeCommand` of `src/index.js`: interactive commands are spawned
with `stdio: 'inherit'` (terminal passthrough) and resolve with a fixed
completion message; other commands have stdout piped and captured and
resolve with the captured text; a nonzero exit code or spawn error
rejects. -/
def executeCommand (proc : String → ProcOutcome) (command : String) :
    IOMode × Except String String :=
  let interactive := isInteractiveCommand command
  let mode := if interactive then IOMode.passthrough else IOMode.captured
  let o := proc command
  match o.spawnError with
  | some e => (mode, Except.error ("Error: " ++ e))
  | none =>
    if o.exitCode = 0 then
      (mode,
       Except.ok (if interactive then "Interactive command completed successfully"
                  else o.stdoutData))
    else
      (mode, Except.error ("Command exited with code " ++ toString o.exitCode))

/-- Outcome of the `exec` callback observed by `executeCommandPromise`:
`(error, stdout, stderr)`. -/
structure ExecOutcome where
  error : Option String
  stdout : String
  stderr : String

/-- `executeCommandPromise` of the agentic module: runs the command through
`exec`, which always pipes and buffers stdio (never terminal passthrough),
rejects with the error message on failure and resolves with the captured
stdout otherwise; stderr is only warned about and dropped. -/
def executeCommandPromise (ex : String → ExecOutcome) (command : String) :
    IOMode × Except String String :=
  let o := ex command
  match o.error with
  | some e => (IOMode.captured, Except.error e)
  | none => (IOMode.captured, Except.ok o.stdout)

/-! ## StepExecutor and ClarificationResolver

`executeStep` and `askForClarification` recurse into each other without any
bound in the source; the embedding adds a fuel parameter, and `none` as the
first component means the recursion was still running when fuel ran out.
The second component is the trace of externally visible actions: one
`clarify` event per clarification round, one `confirmPrompt` per
confirmation prompt, and one `runCommand` per actual invocation of the
command runner, carrying the step exactly as it was at that moment.
External collaborators are bundled in `StepOracle`: the user's confirmation
answer, the `exec` behaviour, and the updated step produced by the
clarification round (question, user answer and LLM rewrite combined). -/

/-- External collaborators of the step executor. -/
structure StepOracle where
  confirmCommand : Step → Bool
  exec : String → ExecOutcome
  clarifiedStep : Step → List ExecutionResult → Option ExecutionResult → Step

/-- The clarification round marks the updated step `clarified = true`. -/
def markClarified (s : Step) : Step := { s with clarified := true }

/-- `executeStep(openai, step, certaintyThreshold, previousResults)`:
below-threshold certainty routes to `askForClarification` — the source call
passes `null` as the current step's partial result, and the clarification
round's body is unfolded here at that argument so that the recursion is
structural on fuel; `askForClarification` below packages the same body for
an arbitrary partial result, and `executeStep_low_certainty_clarifies_first`
identifies the two.  Otherwise a present command is confirmed and run via
`executeCommandPromise`, a declined confirmation is a skip, and a
command-less step succeeds vacuously. -/
def executeStep (o : StepOracle) :
    Nat → Step → ℚ → List ExecutionResult → Option ExecutionResult × List Event
  | 0, _, _, _ => (none, [])
  | fuel + 1, step, certaintyThreshold, previousResults =>
    if step.certainty < certaintyThreshold then
      let updatedStep := markClarified (o.clarifiedStep step previousResults none)
      let p := executeStep o fuel updatedStep DEFAULT_CERTAINTY_THRESHOLD
        previousResults
      (p.1, Event.clarify step :: p.2)
    else
      match step.command with
      | some command =>
        if o.confirmCommand step then
          match executeCommandPromise o.exec command with
          | (_, Except.ok out) =>
            (some { success := true, skipped := false, error := none,
                    result := some out, command := some command },
             [Event.confirmPrompt command, Event.runCommand step command])
          | (_, Except.error e) =>
            (some { success := false, skipped := false, error := some e,
                    result := none, command := some command },
             [Event.confirmPrompt command, Event.runCommand step command])
        else
          (some { success := false, skipped := true, error := none,
                  result := none, command := some command },
           [Event.confirmPrompt command])
      | none =>
        (some { success := true, skipped := false, error := none,
                result := none, command := none }, [])

/-- `askForClarification(openai, step, previousResults,
currentStepPartialResult)`: obtains an updated step from the clarification
round, marks it `clarified`, appends the current step's partial result (when
given) to the context, and re-submits the updated step to `executeStep`
with `DEFAULT_CERTAINTY_THRESHOLD` — not with the caller's threshold. -/
def askForClarification (o : StepOracle) (fuel : Nat) (step : Step)
    (previousResults : List ExecutionResult) (presult : Option ExecutionResult) :
    Option ExecutionResult × List Event :=
  let updatedStep := markClarified (o.clarifiedStep step previousResults presult)
  let updatedPrev :=
    match presult with
    | some r => previousResults ++ [r]
    | none => previousResults
  let p := executeStep o fuel updatedStep DEFAULT_CERTAINTY_THRESHOLD updatedPrev
  (p.1, Event.clarify step :: p.2)

/-! ## OutcomeVerifier and PlanReviser

`verifyStepResult` and `validateRemainingPlan` consult the LLM; the oracle
returns `none` where the call (or the JSON parse of its answer) fails.
`validateRemainingPlan` catches that failure and falls back; a failure of the
verification call itself is rethrown, which the embedding reports as `none`.
Each function also returns the list of LLM calls it performed. -/

/-- An LLM call made by the verification/validation layer. -/
inductive LLMCall where
  | verifyCall
  | validateCall
deriving DecidableEq, Repr

/-- Parsed LLM answer to the verification prompt. -/
structure VerifyResponse where
  verified : Bool
  reason : String
  suggestion : Option String
deriving DecidableEq, Repr

/-- Parsed LLM answer to the plan-validation prompt. -/
structure ValidateResponse where
  needsUpdate : Bool
  reason : Option String
  updatedSteps : Option (List Step)
deriving DecidableEq, Repr

/-- Value returned by `validateRemainingPlan`. -/
structure PlanValidation where
  updatedSteps : List Step
  needsUpdate : Bool
  reason : Option String
deriving DecidableEq, Repr

/-- Value returned by `verifyStepResult`. -/
structure Verification where
  verified : Bool
  reason : String
  suggestion : Option String
  planValidation : Option PlanValidation
deriving DecidableEq, Repr

/-- External collaborators of the verification layer. -/
structure VerifyOracle where
  verdict : Step → ExecutionResult → List ExecutionResult → Option VerifyResponse
  validate : Step → ExecutionResult → List ExecutionResult → List Step →
    Option ValidateResponse

/-- `validateRemainingPlan(openai, currentStep, result, previousResults,
remainingSteps)`: immediately reports no update needed for an empty
remainder; otherwise asks the LLM and either adopts its replacement list
(`needsUpdate`) or returns the remaining steps untouched; any error in the
call or its JSON parse is caught and reduces to the untouched remaining
steps with `needsUpdate = false`. -/
def validateRemainingPlan (o : VerifyOracle) (currentStep : Step)
    (result : ExecutionResult) (previousResults : List ExecutionResult)
    (remainingSteps : List Step) : PlanValidation × List LLMCall :=
  if remainingSteps = [] then
    ({ updatedSteps := [], needsUpdate := false, reason := none }, [])
  else
    match o.validate currentStep result previousResults remainingSteps with
    | none =>
      ({ updatedSteps := remainingSteps, needsUpdate := false, reason := none },
       [LLMCall.validateCall])
    | some v =>
      if v.needsUpdate then
        ({ updatedSteps := v.updatedSteps.getD [], needsUpdate := true,
           reason := v.reason }, [LLMCall.validateCall])
      else
        ({ updatedSteps := remainingSteps, needsUpdate := false,
           reason := v.reason }, [LLMCall.validateCall])

/-- `verifyStepResult(openai, step, result, previousResults,
remainingSteps)`: a non-successful result (skip included) is reported
unverified at once, without any LLM call; otherwise the LLM verdict is
returned, and when it is positive and steps remain, `validateRemainingPlan`
is run and attached as `planValidation`.  `none` models the rethrown
failure of the verification call. -/
def verifyStepResult (o : VerifyOracle) (step : Step) (result : ExecutionResult)
    (previousResults : List ExecutionResult) (remainingSteps : List Step) :
    Option Verification × List LLMCall :=
  if result.success = false then
    (some { verified := false,
            reason := if result.skipped then "Step was skipped"
                      else "Step execution failed",
            suggestion := none, planValidation := none }, [])
  else
    match o.verdict step result previousResults with
    | none => (none, [LLMCall.verifyCall])
    | some v =>
      if v.verified ∧ remainingSteps ≠ [] then
        let pv := validateRemainingPlan o step result previousResults remainingSteps
        (some { verified := v.verified, reason := v.reason,
                suggestion := v.suggestion, planValidation := some pv.1 },
         LLMCall.verifyCall :: pv.2)
      else
        (some { verified := v.verified, reason := v.reason,
                suggestion := v.suggestion, planValidation := none },
         [LLMCall.verifyCall])

/-! ## Controller (`runAgenticTool`) -/

/-- A record accumulated per processed step: `{step, result, verification}`. -/
structure RunRecord where
  step : Step
  result : ExecutionResult
  verification : Verification
deriving DecidableEq, Repr

/-- Terminal outcome of a run. -/
inductive RunResult where
  | completed (results : List RunRecord)
  | cancelled
  | failed
deriving DecidableEq, Repr

/-- External collaborators of the controller: the step executor's oracle,
the verification oracle, and the user's answers to the controller's own
prompts, plus the replanning LLM. -/
structure ControllerOracle where
  stepO : StepOracle
  verifyO : VerifyOracle
  confirmPlan : Bool
  wantNewPlan : Step → ExecutionResult → Bool
  newPlanSteps : Step → ExecutionResult → List Step
  adoptNewPlan : List Step → Bool
  keepGoing : Step → Bool
  adoptUpdatedPlan : List Step → Bool

/-- The controller's post-generation placeholder pass over one step's
command: a detected placeholder clamps certainty to
`min(certainty, threshold − 0.1)` and records the match list. -/
def clampStepForCommand (certaintyThreshold : ℚ) (step : Step) : Step :=
  match step.command with
  | none => step
  | some cmd =>
    let check := detectPlaceholders (some cmd)
    if check.detected then
      { step with
          certainty := min step.certainty (ratSub certaintyThreshold (mkRat 1 10)),
          placeholders := check.patterns }
    else step

/-- The controller's post-generation placeholder pass over one step's
description, clamping certainty the same way. -/
def clampStepForDescription (certaintyThreshold : ℚ) (step : Step) : Step :=
  let check := detectPlaceholders (some step.description)
  if check.detected then
    { step with
        certainty := min step.certainty (ratSub certaintyThreshold (mkRat 1 10)),
        descriptionPlaceholders := check.patterns }
  else step

/-- The controller's placeholder pass over the whole freshly generated plan
(the `plan.steps.forEach` block of `runAgenticTool`): command check first,
then description check, on every step. -/
def applyPlaceholderChecks (certaintyThreshold : ℚ) (plan : List Step) :
    List Step :=
  plan.map fun s =>
    clampStepForDescription certaintyThreshold
      (clampStepForCommand certaintyThreshold s)

/-- The deduplication predicate of the controller loop: an existing record
whose step has the same description and command and whose verification
succeeded. -/
def dedupPred (step : Step) (r : RunRecord) : Bool :=
  r.step.description == step.description &&
  r.step.command == step.command &&
  r.verification.verified

/-- The controller loop of `runAgenticTool`, one call per iteration of the
`for` loop over `plan.steps`, with `fuel` bounding the number of iterations
(the source loop can restart from index 0 after an adopted replan).  Returns
the outcome (or `none` when fuel or the step executor's clarification fuel
ran out) and the accumulated event trace. -/
def runLoop (o : ControllerOracle) (clarFuel : Nat) :
    Nat → List Step → Nat → List RunRecord → List Event →
    Option RunResult × List Event
  | 0, _, _, _, trace => (none, trace)
  | fuel + 1, plan, i, results, trace =>
    match plan[i]? with
    | none => (some (RunResult.completed results), trace)
    | some step =>
      match results.find? (dedupPred step) with
      | some r0 =>
        -- Step already executed successfully: reuse its result and
        -- verification, no executor call, no new events.
        runLoop o clarFuel fuel plan (i + 1)
          (results ++ [{ step := step, result := r0.result,
                         verification := r0.verification }]) trace
      | none =>
        let previousResults := results.map fun r => r.result
        match executeStep o.stepO clarFuel step DEFAULT_CERTAINTY_THRESHOLD
            previousResults with
        | (none, evs) => (none, trace ++ evs)
        | (some result, evs) =>
          let trace1 := trace ++ evs
          -- On a hard failure (not a skip) the user may adopt a brand-new
          -- plan: the plan is replaced wholesale, records are cleared, and
          -- the loop restarts from index 0.  The new plan does not go
          -- through the placeholder pass.
          if !result.success && !result.skipped
              && o.wantNewPlan step result
              && o.adoptNewPlan (o.newPlanSteps step result) then
            runLoop o clarFuel fuel (o.newPlanSteps step result) 0 [] trace1
          else
            let remainingSteps := plan.drop (i + 1)
            match (verifyStepResult o.verifyO step result previousResults
                remainingSteps).1 with
            | none => (some RunResult.failed, trace1)
            | some verification =>
              let results1 := results ++
                [{ step := step, result := result, verification := verification }]
              if verification.verified = false then
                if o.keepGoing step then
                  runLoop o clarFuel fuel plan (i + 1) results1 trace1
                else
                  (some (RunResult.completed results1), trace1)
              else
                match verification.planValidation with
                | some pv =>
                  if pv.needsUpdate && o.adoptUpdatedPlan pv.updatedSteps then
                    runLoop o clarFuel fuel
                      (plan.take (i + 1) ++ pv.updatedSteps) (i + 1)
                      results1 trace1
                  else
                    runLoop o clarFuel fuel plan (i + 1) results1 trace1
                | none =>
                  runLoop o clarFuel fuel plan (i + 1) results1 trace1

/-- `runAgenticTool(openai, userInput)` after plan creation: the generated
steps go through the placeholder pass, the user confirms the plan, and the
loop runs with the default certainty threshold. -/
def runAgenticTool (o : ControllerOracle) (clarFuel loopFuel : Nat)
    (generatedSteps : List Step) : Option RunResult × List Event :=
  let plan := applyPlaceholderChecks DEFAULT_CERTAINTY_THRESHOLD generatedSteps
  if o.confirmPlan then
    runLoop o clarFuel loopFuel plan 0 [] []
  else
    (some RunResult.cancelled, [])

/-! ## Concrete instances

Small concrete steps, results and oracles used to instantiate the theorems
below on closed inputs. -/

/-- An `exec` behaviour that succeeds on every command. -/
def plainExec : String → ExecOutcome := fun _ => { error := none, stdout := "ok", stderr := "" }

/-- A step oracle whose user confirms everything and whose clarification
round raises the step's certainty to 4/5. -/
def raiseOracle : StepOracle :=
  { confirmCommand := fun _ => true,
    exec := plainExec,
    clarifiedStep := fun s _ _ => { s with certainty := mkRat 4 5 } }

/-- A low-certainty step with a placeholder-style command. -/
def lowStep : Step :=
  { description := "Clone the repository",
    command := some "git clone <repository_url>",
    certainty := mkRat 1 2, placeholders := [], descriptionPlaceholders := [],
    clarified := false }

/-- A clean high-certainty step whose command fails at run time. -/
def buildStep : Step :=
  { description := "Run the build", command := some "make",
    certainty := mkRat 9 10, placeholders := [], descriptionPlaceholders := [],
    clarified := false }

/-- A high-certainty step whose command contains the `path/to/`
placeholder. -/
def pathToProjectStep : Step :=
  { description := "Install dependencies",
    command := some "cd path/to/project && npm install",
    certainty := mkRat 19 20, placeholders := [], descriptionPlaceholders := [],
    clarified := false }

/-- A high-certainty step whose command contains `example_project`, which the
generic `/example/i` pattern matches. -/
def exampleProjectStep : Step :=
  { description := "Install project dependencies",
    command := some "cd example_project && npm install",
    certainty := mkRat 19 20, placeholders := [], descriptionPlaceholders := [],
    clarified := false }

/-- An `exec` behaviour under which only `make` fails. -/
def failingExec : String → ExecOutcome := fun c =>
  if c = "make" then { error := some "make failed", stdout := "", stderr := "" }
  else { error := none, stdout := "ok", stderr := "" }

/-- A controller oracle that adopts a replacement plan containing
`pathToProjectStep` after the first failure. -/
def replanOracle : ControllerOracle :=
  { stepO := { confirmCommand := fun _ => true, exec := failingExec,
               clarifiedStep := fun s _ _ => s },
    verifyO := { verdict := fun _ _ _ =>
                   some { verified := true, reason := "ok", suggestion := none },
                 validate := fun _ _ _ _ =>
                   some { needsUpdate := false, reason := some "still valid",
                          updatedSteps := none } },
    confirmPlan := true,
    wantNewPlan := fun _ _ => true,
    newPlanSteps := fun _ _ => [pathToProjectStep],
    adoptNewPlan := fun _ => true,
    keepGoing := fun _ => true,
    adoptUpdatedPlan := fun _ => false }

/-- `pathToProjectStep` as the placeholder pass leaves it: certainty clamped
to 3/5 and the `path/to/` match recorded. -/
def clampedPathStep : Step :=
  { description := "Install dependencies",
    command := some "cd path/to/project && npm install",
    certainty := mkRat 3 5,
    placeholders := [{ pattern := "/path\\/to\\//i", matched := "path/to/" }],
    descriptionPlaceholders := [], clarified := false }

/-- A verified, successful step used in deduplication instances. -/
def lsStep : Step :=
  { description := "List files", command := some "ls",
    certainty := mkRat 9 10, placeholders := [], descriptionPlaceholders := [],
    clarified := false }

/-- A SUCCEEDED + verified run record for `lsStep`. -/
def lsRecord : RunRecord :=
  { step := lsStep,
    result := { success := true, skipped := false, error := none,
                result := some "files", command := some "ls" },
    verification := { verified := true, reason := "looks right",
                      suggestion := none, planValidation := none } }

/-- A user-declined (skipped) execution result. -/
def skipResult : ExecutionResult :=
  { success := false, skipped := true, error := none, result := none,
    command := some "ls" }

/-- A hard-failure execution result. -/
def failResult : ExecutionResult :=
  { success := false, skipped := false, error := some "boom", result := none,
    command := some "ls" }

/-- A verification oracle whose plan validation reports no update needed. -/
def noUpdateVerifyOracle : VerifyOracle :=
  { verdict := fun _ _ _ => some { verified := true, reason := "ok", suggestion := none },
    validate := fun _ _ _ _ =>
      some { needsUpdate := false, reason := some "still valid", updatedSteps := none } }

/-- A verification oracle whose plan-validation LLM call fails. -/
def errorValidateOracle : VerifyOracle :=
  { verdict := fun _ _ _ => some { verified := true, reason := "ok", suggestion := none },
    validate := fun _ _ _ _ => none }

/-! ## Claim statements quantified over all behaviours

The next three `Prop`s state spec claims verbatim so that their failure on
the code can be exhibited as a negation at a concrete input. -/

/-- Claimed invariant: every step carrying a placeholder match in its
command or description has certainty at most `threshold − 0.1` whenever the
command runner is invoked on it. -/
def placeholderCertaintyInvariant : Prop :=
  ∀ (o : ControllerOracle) (clarFuel loopFuel : Nat) (generatedSteps : List Step)
    (s : Step) (c : String),
    Event.runCommand s c ∈ (runAgenticTool o clarFuel loopFuel generatedSteps).2 →
    ((detectPlaceholders s.command).detected = true ∨
      (detectPlaceholders (some s.description)).detected = true) →
    s.certainty ≤ ratSub DEFAULT_CERTAINTY_THRESHOLD (mkRat 1 10)

/-- Claimed contract: the step executor's command runner gives a command
detected as interactive full terminal I/O passthrough. -/
def stepExecutorInteractiveContract : Prop :=
  ∀ (ex : String → ExecOutcome) (command : String),
    isInteractiveCommand command = true →
    (executeCommandPromise ex command).1 = IOMode.passthrough

/-- Claimed contract: `detectPlaceholders` returns every placeholder match
present in the text (every position at which some pattern of the list
matches contributes its matched text to the `patterns` list). -/
def detectReturnsEveryMatch : Prop :=
  ∀ (t : String) (p : String × (List Char → Option (List Char))) (i : Nat)
    (m : List Char),
    p ∈ PLACEHOLDER_PATTERNS →
    p.2 (t.toList.drop i) = some m →
    ∃ e ∈ (detectPlaceholders (some t)).patterns, e.matched = String.mk m

/-! ## Theorems -/

/-- `ratSub` is ordinary subtraction of rationals. -/
theorem ratSub_eq_sub (a b : ℚ) : ratSub a b = a - b := by
  unfold ratSub
  rw [Rat.mkRat_eq_div]
  have ha : ((a.den : ℚ)) ≠ 0 := by exact_mod_cast a.den_nz
  have hb : ((b.den : ℚ)) ≠ 0 := by exact_mod_cast b.den_nz
  push_cast
  conv_rhs => rw [← Rat.num_div_den a, ← Rat.num_div_den b]
  rw [div_sub_div _ _ ha hb]
  ring_nf

/-- C1: a step whose certainty lies strictly below the threshold is routed
through the clarification resolver, and the run's event trace for that step
starts with the clarification round — in particular no confirmation prompt
and no command-runner invocation precedes it. -/
theorem executeStep_low_certainty_clarifies_first
    (o : StepOracle) (fuel : Nat) (step : Step) (certaintyThreshold : ℚ)
    (previousResults : List ExecutionResult)
    (h : step.certainty < certaintyThreshold) :
    executeStep o (fuel + 1) step certaintyThreshold previousResults =
      askForClarification o fuel step previousResults none ∧
    ∃ tl, (executeStep o (fuel + 1) step certaintyThreshold previousResults).2 =
      Event.clarify step :: tl := by
  refine ⟨by simp [executeStep, askForClarification, h], ?_⟩
  refine ⟨(executeStep o fuel
    (markClarified (o.clarifiedStep step previousResults none))
    DEFAULT_CERTAINTY_THRESHOLD previousResults).2, ?_⟩
  simp [executeStep, h]

/-- Witness for `executeStep_low_certainty_clarifies_first` at a concrete
low-certainty step. -/
theorem executeStep_low_certainty_clarifies_first_witness :
    lowStep.certainty < DEFAULT_CERTAINTY_THRESHOLD ∧
    (executeStep raiseOracle 2 lowStep DEFAULT_CERTAINTY_THRESHOLD [] =
       askForClarification raiseOracle 1 lowStep [] none ∧
     ∃ tl, (executeStep raiseOracle 2 lowStep DEFAULT_CERTAINTY_THRESHOLD []).2 =
       Event.clarify lowStep :: tl) :=
  ⟨by decide,
   executeStep_low_certainty_clarifies_first raiseOracle 1 lowStep
     DEFAULT_CERTAINTY_THRESHOLD [] (by decide)⟩

/-- C9: after a clarification round the updated step is re-submitted to the
step executor with `DEFAULT_CERTAINTY_THRESHOLD` (7/10), not with the
caller-supplied threshold; any caller threshold is discarded at that
point. -/
theorem askForClarification_resubmits_default_threshold
    (o : StepOracle) (fuel : Nat) (step : Step) (certaintyThreshold : ℚ)
    (previousResults : List ExecutionResult)
    (h : step.certainty < certaintyThreshold) :
    executeStep o (fuel + 1) step certaintyThreshold previousResults =
      ((executeStep o fuel (markClarified (o.clarifiedStep step previousResults none))
          DEFAULT_CERTAINTY_THRESHOLD previousResults).1,
       Event.clarify step ::
         (executeStep o fuel (markClarified (o.clarifiedStep step previousResults none))
            DEFAULT_CERTAINTY_THRESHOLD previousResults).2) := by
  simp [executeStep, askForClarification, h]

/-- Witness for `askForClarification_resubmits_default_threshold` with a
caller threshold of 9/10: the clarified step (certainty 4/5) is judged
against 7/10, not against 9/10, so it proceeds to execution. -/
theorem askForClarification_resubmits_default_threshold_witness :
    lowStep.certainty < mkRat 9 10 ∧
    executeStep raiseOracle 2 lowStep (mkRat 9 10) [] =
      ((executeStep raiseOracle 1
          (markClarified (raiseOracle.clarifiedStep lowStep [] none))
          DEFAULT_CERTAINTY_THRESHOLD []).1,
       Event.clarify lowStep ::
         (executeStep raiseOracle 1
            (markClarified (raiseOracle.clarifiedStep lowStep [] none))
            DEFAULT_CERTAINTY_THRESHOLD []).2) ∧
    (executeStep raiseOracle 2 lowStep (mkRat 9 10) []).2 =
      [Event.clarify lowStep,
       Event.confirmPrompt "git clone <repository_url>",
       Event.runCommand (markClarified { lowStep with certainty := mkRat 4 5 })
         "git clone <repository_url>"] :=
  ⟨by decide,
   askForClarification_resubmits_default_threshold raiseOracle 1 lowStep
     (mkRat 9 10) [] (by decide),
   by decide⟩

/-- C6: a non-successful execution result is reported unverified at once —
reason `"Step was skipped"` for a user skip, `"Step execution failed"`
otherwise — and the empty call list shows no LLM call was made. -/
theorem verifyStepResult_failure_no_llm
    (o : VerifyOracle) (step : Step) (result : ExecutionResult)
    (previousResults : List ExecutionResult) (remainingSteps : List Step)
    (h : result.success = false) :
    verifyStepResult o step result previousResults remainingSteps =
      (some { verified := false,
              reason := if result.skipped then "Step was skipped"
                        else "Step execution failed",
              suggestion := none, planValidation := none }, []) := by
  simp [verifyStepResult, h]

/-- Witness for `verifyStepResult_failure_no_llm` on both a skipped and a
hard-failed concrete result. -/
theorem verifyStepResult_failure_no_llm_witness :
    skipResult.success = false ∧ failResult.success = false ∧
    verifyStepResult noUpdateVerifyOracle lsStep skipResult [] [lsStep] =
      (some { verified := false, reason := "Step was skipped",
              suggestion := none, planValidation := none }, []) ∧
    verifyStepResult noUpdateVerifyOracle lsStep failResult [] [lsStep] =
      (some { verified := false, reason := "Step execution failed",
              suggestion := none, planValidation := none }, []) :=
  ⟨rfl, rfl,
   verifyStepResult_failure_no_llm noUpdateVerifyOracle lsStep skipResult [] [lsStep] rfl,
   verifyStepResult_failure_no_llm noUpdateVerifyOracle lsStep failResult [] [lsStep] rfl⟩

/-- C8: when the model reports `needsUpdate = false` (and also when its call
fails, which the code folds into the same outcome), `validateRemainingPlan`
returns the input remaining steps unchanged, and a second call on the
returned steps yields the same value — the operation is idempotent and
mutation-free. -/
theorem validateRemainingPlan_idempotent_no_update
    (o : VerifyOracle) (currentStep : Step) (result : ExecutionResult)
    (previousResults : List ExecutionResult) (remainingSteps : List Step)
    (h : ∀ v, o.validate currentStep result previousResults remainingSteps = some v →
         v.needsUpdate = false) :
    (validateRemainingPlan o currentStep result previousResults remainingSteps).1.updatedSteps
      = remainingSteps ∧
    (validateRemainingPlan o currentStep result previousResults remainingSteps).1.needsUpdate
      = false ∧
    validateRemainingPlan o currentStep result previousResults
        ((validateRemainingPlan o currentStep result previousResults
            remainingSteps).1.updatedSteps)
      = validateRemainingPlan o currentStep result previousResults remainingSteps := by
  have hu : (validateRemainingPlan o currentStep result previousResults
      remainingSteps).1.updatedSteps = remainingSteps ∧
      (validateRemainingPlan o currentStep result previousResults
        remainingSteps).1.needsUpdate = false := by
    by_cases hrem : remainingSteps = []
    · subst hrem; simp [validateRemainingPlan]
    · cases hv : o.validate currentStep result previousResults remainingSteps with
      | none => simp [validateRemainingPlan, hrem, hv]
      | some v => simp [validateRemainingPlan, hrem, hv, h v hv]
  exact ⟨hu.1, hu.2, by rw [hu.1]⟩

/-- Witness for `validateRemainingPlan_idempotent_no_update` with a concrete
no-update model and a singleton remainder. -/
theorem validateRemainingPlan_idempotent_no_update_witness :
    (validateRemainingPlan noUpdateVerifyOracle lsStep skipResult [] [lsStep]).1.updatedSteps
      = [lsStep] ∧
    (validateRemainingPlan noUpdateVerifyOracle lsStep skipResult [] [lsStep]).1.needsUpdate
      = false ∧
    validateRemainingPlan noUpdateVerifyOracle lsStep skipResult []
        ((validateRemainingPlan noUpdateVerifyOracle lsStep skipResult []
            [lsStep]).1.updatedSteps)
      = validateRemainingPlan noUpdateVerifyOracle lsStep skipResult [] [lsStep] :=
  validateRemainingPlan_idempotent_no_update noUpdateVerifyOracle lsStep skipResult []
    [lsStep] (fun v hv => by cases hv; rfl)

/-- C10: when the plan-validation LLM call (or the parse of its answer)
fails, `validateRemainingPlan` swallows the error and returns the original
remaining steps with `needsUpdate = false`; a validation failure can never
alter the remaining plan or abort the run. -/
theorem validateRemainingPlan_error_fallback
    (o : VerifyOracle) (currentStep : Step) (result : ExecutionResult)
    (previousResults : List ExecutionResult) (remainingSteps : List Step)
    (h : o.validate currentStep result previousResults remainingSteps = none) :
    (validateRemainingPlan o currentStep result previousResults remainingSteps).1 =
      { updatedSteps := remainingSteps, needsUpdate := false, reason := none } := by
  by_cases hrem : remainingSteps = []
  · subst hrem; simp [validateRemainingPlan]
  · simp [validateRemainingPlan, hrem, h]

/-- Witness for `validateRemainingPlan_error_fallback` with a concrete
failing validation call. -/
theorem validateRemainingPlan_error_fallback_witness :
    (validateRemainingPlan errorValidateOracle lsStep skipResult [] [lsStep]).1 =
      { updatedSteps := [lsStep], needsUpdate := false, reason := none } :=
  validateRemainingPlan_error_fallback errorValidateOracle lsStep skipResult []
    [lsStep] rfl

/-- The command-side clamp leaves the step's command unchanged. -/
theorem clampStepForCommand_command (t : ℚ) (s : Step) :
    (clampStepForCommand t s).command = s.command := by
  unfold clampStepForCommand
  split
  · rfl
  · dsimp only; split <;> rfl

/-- The description-side clamp leaves the step's command unchanged. -/
theorem clampStepForDescription_command (t : ℚ) (s : Step) :
    (clampStepForDescription t s).command = s.command := by
  unfold clampStepForDescription
  dsimp only
  split <;> rfl

/-- The description-side clamp leaves the step's description unchanged. -/
theorem clampStepForDescription_description (t : ℚ) (s : Step) :
    (clampStepForDescription t s).description = s.description := by
  unfold clampStepForDescription
  dsimp only
  split <;> rfl

/-- The description-side clamp never raises certainty. -/
theorem clampStepForDescription_certainty_le (t : ℚ) (s : Step) :
    (clampStepForDescription t s).certainty ≤ s.certainty := by
  unfold clampStepForDescription
  dsimp only
  split
  · exact min_le_left _ _
  · exact le_refl _

/-- A detected command placeholder clamps certainty to at most
`t − 1/10`. -/
theorem clampStepForCommand_clamps (t : ℚ) (s : Step)
    (h : (detectPlaceholders s.command).detected = true) :
    (clampStepForCommand t s).certainty ≤ ratSub t (mkRat 1 10) := by
  unfold clampStepForCommand
  cases hc : s.command with
  | none => rw [hc] at h; exact absurd h (by simp [detectPlaceholders])
  | some c =>
    rw [hc] at h
    dsimp only
    rw [if_pos h]
    exact min_le_right _ _

/-- A detected description placeholder clamps certainty to at most
`t − 1/10`. -/
theorem clampStepForDescription_clamps (t : ℚ) (s : Step)
    (h : (detectPlaceholders (some s.description)).detected = true) :
    (clampStepForDescription t s).certainty ≤ ratSub t (mkRat 1 10) := by
  unfold clampStepForDescription
  dsimp only
  rw [if_pos h]
  exact min_le_right _ _

/-- C2 (amended): after the controller's post-generation placeholder pass,
every step of the resulting plan whose command or description matches a
placeholder pattern has certainty at most `threshold − 0.1`.  (Steps spliced
in later by an adopted full replan or partial revision do not pass through
this check — see `placeholderCertaintyInvariant_cex`.) -/
theorem applyPlaceholderChecks_clamps_placeholders
    (t : ℚ) (steps : List Step) (s : Step)
    (hs : s ∈ applyPlaceholderChecks t steps)
    (hdet : (detectPlaceholders s.command).detected = true ∨
            (detectPlaceholders (some s.description)).detected = true) :
    s.certainty ≤ t - mkRat 1 10 := by
  rw [← ratSub_eq_sub]
  obtain ⟨s0, -, rfl⟩ := List.mem_map.mp hs
  rcases hdet with hcmd | hdesc
  · have hcmd' : (detectPlaceholders (clampStepForCommand t s0).command).detected
        = true := by
      rwa [clampStepForDescription_command] at hcmd
    calc (clampStepForDescription t (clampStepForCommand t s0)).certainty
        ≤ (clampStepForCommand t s0).certainty :=
          clampStepForDescription_certainty_le _ _
      _ ≤ ratSub t (mkRat 1 10) := by
          rw [clampStepForCommand_command] at hcmd'
          exact clampStepForCommand_clamps t s0 hcmd'
  · refine clampStepForDescription_clamps t _ ?_
    rwa [clampStepForDescription_description t (clampStepForCommand t s0)]
      at hdesc

/-- Witness for `applyPlaceholderChecks_clamps_placeholders`: the pass turns
`pathToProjectStep` into `clampedPathStep`, which satisfies the clamped
bound. -/
theorem applyPlaceholderChecks_clamps_placeholders_witness :
    clampedPathStep ∈
      applyPlaceholderChecks DEFAULT_CERTAINTY_THRESHOLD [pathToProjectStep] ∧
    (detectPlaceholders clampedPathStep.command).detected = true ∧
    clampedPathStep.certainty ≤ DEFAULT_CERTAINTY_THRESHOLD - mkRat 1 10 :=
  ⟨by decide, by decide,
   applyPlaceholderChecks_clamps_placeholders DEFAULT_CERTAINTY_THRESHOLD
     [pathToProjectStep] clampedPathStep (by decide) (Or.inl (by decide))⟩

/-- C2 (counterexample): the claimed invariant — every step with a
placeholder match has certainty at most `threshold − 0.1` at the moment the
command runner is invoked on it — fails: a step introduced by an adopted
full replan after a failure is executed without ever passing the
placeholder check, here `pathToProjectStep` with certainty 19/20. -/
theorem placeholderCertaintyInvariant_cex : ¬ placeholderCertaintyInvariant := by
  intro h
  have h2 := h replanOracle 3 5 [buildStep] pathToProjectStep
    "cd path/to/project && npm install" (by decide) (Or.inl (by decide))
  exact absurd h2 (by decide)

/-- C3 (counterexample): the step executor's command runner
(`executeCommandPromise`, built on `exec`) does not give interactive-looking
commands terminal passthrough: `vim notes.txt` is detected as interactive,
yet runs with captured output. -/
theorem stepExecutorInteractiveContract_cex : ¬ stepExecutorInteractiveContract := by
  intro h
  have h2 := h plainExec "vim notes.txt" (by decide)
  exact absurd h2 (by decide)

/-- C3 (amended): the interactive heuristic and passthrough behaviour
belong to the CLI's `executeCommand`: there an interactive command runs with
terminal passthrough and returns only a fixed completion message, and every
other command runs captured and returns its stdout.  The step executor's
`executeCommandPromise` runs every confirmed command with output captured,
returning stdout on success, regardless of the heuristic. -/
theorem commandRunner_modes (proc : String → ProcOutcome)
    (ex : String → ExecOutcome) (command : String) :
    (executeCommandPromise ex command).1 = IOMode.captured ∧
    ((ex command).error = none →
      (executeCommandPromise ex command).2 = Except.ok (ex command).stdout) ∧
    (isInteractiveCommand command = true → (proc command).spawnError = none →
      (proc command).exitCode = 0 →
      executeCommand proc command =
        (IOMode.passthrough, Except.ok "Interactive command completed successfully")) ∧
    (isInteractiveCommand command = false → (proc command).spawnError = none →
      (proc command).exitCode = 0 →
      executeCommand proc command =
        (IOMode.captured, Except.ok (proc command).stdoutData)) := by
  refine ⟨?_, ?_, ?_, ?_⟩
  · cases he : (ex command).error <;> simp [executeCommandPromise, he]
  · intro he; simp [executeCommandPromise, he]
  · intro hi hs hz; simp [executeCommand, hi, hs, hz]
  · intro hi hs hz; simp [executeCommand, hi, hs, hz]

/-- Witness for `commandRunner_modes`: `vim notes.txt` (interactive) and
`ls -la` (not interactive) under an always-succeeding process. -/
theorem commandRunner_modes_witness :
    (executeCommandPromise plainExec "vim notes.txt").1 = IOMode.captured ∧
    ((fun _ => ProcOutcome.mk none 0 "out") "vim notes.txt").spawnError = none ∧
    executeCommand (fun _ => ProcOutcome.mk none 0 "out") "vim notes.txt" =
      (IOMode.passthrough, Except.ok "Interactive command completed successfully") ∧
    executeCommand (fun _ => ProcOutcome.mk none 0 "out") "ls -la" =
      (IOMode.captured, Except.ok "out") :=
  ⟨(commandRunner_modes (fun _ => ProcOutcome.mk none 0 "out") plainExec
      "vim notes.txt").1,
   rfl,
   (commandRunner_modes (fun _ => ProcOutcome.mk none 0 "out") plainExec
      "vim notes.txt").2.2.1 (by decide) rfl rfl,
   (commandRunner_modes (fun _ => ProcOutcome.mk none 0 "out") plainExec
      "ls -la").2.2.2 (by decide) rfl rfl⟩

/-- C4 (counterexample): `"cd example_project && npm install"` does not keep
its certainty: the generic `/example/i` pattern matches `example_project`,
so the placeholder pass clamps its certainty from 19/20 to 3/5. -/
theorem exampleProject_certainty_not_preserved_cex :
    (applyPlaceholderChecks DEFAULT_CERTAINTY_THRESHOLD
        [exampleProjectStep]).map Step.certainty = [mkRat 3 5] ∧
    exampleProjectStep.certainty = mkRat 19 20 ∧
    (mkRat 3 5 : ℚ) ≠ mkRat 19 20 ∧
    (detectPlaceholders exampleProjectStep.command).patterns =
      [{ pattern := "/example/i", matched := "example" }] := by
  decide

/-- C4 (amended): after the placeholder pass, both the
`cd example_project && npm install` step and the
`cd path/to/project && npm install` step are clamped below 0.7 — the former
because `/example/i` matches, the latter with a recorded `path/to/`
placeholder entry. -/
theorem placeholder_scenario_both_clamped :
    (applyPlaceholderChecks DEFAULT_CERTAINTY_THRESHOLD
        [exampleProjectStep, pathToProjectStep]).map Step.certainty =
      [mkRat 3 5, mkRat 3 5] ∧
    (mkRat 3 5 : ℚ) < mkRat 7 10 ∧
    (applyPlaceholderChecks DEFAULT_CERTAINTY_THRESHOLD
        [exampleProjectStep, pathToProjectStep]).map Step.placeholders =
      [[{ pattern := "/example/i", matched := "example" }],
       [{ pattern := "/path\\/to\\//i", matched := "path/to/" }]] := by
  decide

/-- C5: when the controller reaches a step whose description and command
match an already-recorded verified record, the iteration reuses that
record's result and verification and proceeds to the next index with the
trace unchanged — no step-executor call and no command-runner invocation
happens for that step. -/
theorem runLoop_dedup_reuses_record
    (o : ControllerOracle) (clarFuel fuel : Nat) (plan : List Step) (i : Nat)
    (results : List RunRecord) (trace : List Event) (step : Step)
    (hstep : plan[i]? = some step)
    (hm : ∃ r ∈ results, r.step.description = step.description ∧
      r.step.command = step.command ∧ r.result.success = true ∧
      r.verification.verified = true) :
    ∃ r0, results.find? (dedupPred step) = some r0 ∧
      r0.step.description = step.description ∧
      r0.step.command = step.command ∧
      r0.verification.verified = true ∧
      runLoop o clarFuel (fuel + 1) plan i results trace =
        runLoop o clarFuel fuel plan (i + 1)
          (results ++ [{ step := step, result := r0.result,
                         verification := r0.verification }]) trace := by
  obtain ⟨r, hr, hd, hc, -, hv⟩ := hm
  have hsome : (results.find? (dedupPred step)).isSome := by
    rw [List.find?_isSome]
    exact ⟨r, hr, by simp [dedupPred, hd, hc, hv]⟩
  obtain ⟨r0, hr0⟩ := Option.isSome_iff_exists.mp hsome
  have hp := List.find?_some hr0
  have hp3 : r0.step.description = step.description ∧
      r0.step.command = step.command ∧ r0.verification.verified = true := by
    simpa [dedupPred, and_assoc] using hp
  refine ⟨r0, hr0, hp3.1, hp3.2.1, hp3.2.2, ?_⟩
  simp only [runLoop, hstep, hr0]

/-- Witness for `runLoop_dedup_reuses_record`: a plan revisiting `lsStep`
with its verified record already present. -/
theorem runLoop_dedup_reuses_record_witness :
    ∃ r0, [lsRecord].find? (dedupPred lsStep) = some r0 ∧
      r0.step.description = lsStep.description ∧
      r0.step.command = lsStep.command ∧
      r0.verification.verified = true ∧
      runLoop replanOracle 2 2 [lsStep] 0 [lsRecord] [] =
        runLoop replanOracle 2 1 [lsStep] 1
          ([lsRecord] ++ [{ step := lsStep, result := r0.result,
                            verification := r0.verification }]) [] :=
  runLoop_dedup_reuses_record replanOracle 2 1 [lsStep] 0 [lsRecord] [] lsStep
    (by decide) ⟨lsRecord, by decide, rfl, rfl, rfl, rfl⟩

/-- C7 (counterexample): `detectPlaceholders` does not return every
placeholder match present in the text: in `"cd foo && cd bar"` the pattern
`/foo|bar|baz/i` also matches at `bar`, yet only the first match `foo` is
recorded. -/
theorem detectReturnsEveryMatch_cex : ¬ detectReturnsEveryMatch := by
  intro h
  have hmem : ("/foo|bar|baz/i", atFooBarBaz) ∈ PLACEHOLDER_PATTERNS := by
    unfold PLACEHOLDER_PATTERNS
    exact List.Mem.tail _ (List.Mem.tail _ (List.Mem.tail _ (List.Mem.tail _
      (List.Mem.tail _ (List.Mem.tail _ (List.Mem.tail _ (List.Mem.tail _
        (List.Mem.tail _ (List.Mem.tail _ (List.Mem.head _))))))))))
  have h2 := h "cd foo && cd bar" ("/foo|bar|baz/i", atFooBarBaz) 13
    ['b', 'a', 'r'] hmem (by decide)
  obtain ⟨e, he, hmatch⟩ := h2
  have hpat : (detectPlaceholders (some "cd foo && cd bar")).patterns =
      [{ pattern := "/foo|bar|baz/i", matched := "foo" }] := by decide
  rw [hpat] at he
  simp only [List.mem_singleton] at he
  rw [he] at hmatch
  exact absurd hmatch (by decide)

/-- C7 (amended): for every nonempty text, every pattern of the fixed list
that matches somewhere contributes exactly its first (leftmost) match to the
`patterns` list; later occurrences of the same pattern are not included. -/
theorem detect_contains_first_match_of_each_pattern
    (t : String) (p : String × (List Char → Option (List Char))) (m : List Char)
    (ht : t ≠ "") (hp : p ∈ PLACEHOLDER_PATTERNS)
    (hm : scan p.2 t.toList = some m) :
    { pattern := p.1, matched := String.mk m } ∈
      (detectPlaceholders (some t)).patterns := by
  unfold detectPlaceholders
  dsimp only
  rw [if_neg ht]
  dsimp only
  rw [List.mem_filterMap]
  exact ⟨p, hp, by rw [hm]; rfl⟩

/-- Witness for `detect_contains_first_match_of_each_pattern` on the spec's
own example `cd /path/to/repo && git pull`. -/
theorem detect_contains_first_match_of_each_pattern_witness :
    ("cd /path/to/repo && git pull" : String) ≠ "" ∧
    scan (litAt "path/to/") "cd /path/to/repo && git pull".toList =
      some "path/to/".toList ∧
    { pattern := "/path\\/to\\//i", matched := String.mk "path/to/".toList } ∈
      (detectPlaceholders (some "cd /path/to/repo && git pull")).patterns :=
  ⟨by decide, by decide,
   detect_contains_first_match_of_each_pattern "cd /path/to/repo && git pull"
     ("/path\\/to\\//i", litAt "path/to/") "path/to/".toList (by decide)
     (List.Mem.head _) (by decide)⟩

end BlueJay
